import Mathlib

set_option maxHeartbeats 1000000

/-!
Verification of the erlpack ETF codec (Go sources: encoder.go, decoder.go,
main.go).  The Go code is shallowly embedded: wire data is a list of byte
values, the decoder's mutable cursor (`data`, `offset`) is passed as explicit
state, fallible operations return `Except`, and a Go `panic` is a distinguished
error constructor.  External library calls (zlib inflation, strconv float
formatting/parsing, the JSON marshaller) are parameters of the embedding,
bundled in the `Ext` structure.
-/

namespace Erlpack

/-- Wire bytes: each entry stands for one byte (values < 256 on real wires). -/
abbrev Bytes := List Nat

/-- Tag constants from decoder.go. -/
@[simp] def SMALL_INTEGER_EXT : Nat := 97

@[simp] def INTEGER_EXT : Nat := 98

@[simp] def FLOAT_EXT : Nat := 99

@[simp] def ATOM_EXT : Nat := 100

@[simp] def SMALL_ATOM_EXT : Nat := 115

@[simp] def SMALL_TUPLE_EXT : Nat := 104

@[simp] def LARGE_TUPLE_EXT : Nat := 105

@[simp] def NIL_EXT : Nat := 106

@[simp] def STRING_EXT : Nat := 107

@[simp] def LIST_EXT : Nat := 108

@[simp] def MAP_EXT : Nat := 116

@[simp] def BINARY_EXT : Nat := 109

@[simp] def SMALL_BIG_EXT : Nat := 110

@[simp] def LARGE_BIG_EXT : Nat := 111

@[simp] def NEW_FLOAT_EXT : Nat := 70

@[simp] def COMPRESSED : Nat := 80

@[simp] def FORMAT_VERSION : Nat := 131

/-- Outcome of a decoder operation: a returned Go `error`, or a Go `panic`
(which aborts the call instead of returning control normally). -/
inductive DErr where
  | err (msg : String)
  | panicked (msg : String)
deriving Repr, DecidableEq

/-- The decoder struct of decoder.go: byte buffer plus mutable read offset. -/
structure DecSt where
  data : Bytes
  offset : Nat
deriving Repr, DecidableEq

/-- Result of a decoder method: the Go return value (or error) paired with the
receiver state after the call. -/
abbrev DRes (α : Type) := Except DErr α × DecSt

/-- Sequencing of decoder methods: on error the state at the failure point is
kept (the Go receiver keeps whatever mutations already happened). -/
def dbind {α β : Type} (r : DRes α) (k : α → DecSt → DRes β) : DRes β :=
  match r with
  | (Except.ok a, st) => k a st
  | (Except.error e, st) => (Except.error e, st)

/-- Big-endian value of a byte list (binary.BigEndian.UintNN). -/
def beVal (bs : Bytes) : Nat :=
  bs.foldl (fun acc b => acc * 256 + b) 0

/-- Decoder.read8: bounds check `offset+1 <= len(data)` before reading. -/
def read8 (st : DecSt) : DRes Nat :=
  if st.offset + 1 > st.data.length then
    (Except.error (DErr.err "reading a byte exceeds buffer size"), st)
  else
    (Except.ok ((st.data.drop st.offset).headD 0), ⟨st.data, st.offset + 1⟩)

/-- Decoder.read16: two bytes big-endian. -/
def read16 (st : DecSt) : DRes Nat :=
  if st.offset + 2 > st.data.length then
    (Except.error (DErr.err "reading two bytes exceeds buffer size"), st)
  else
    (Except.ok (beVal ((st.data.drop st.offset).take 2)), ⟨st.data, st.offset + 2⟩)

/-- Decoder.read32: four bytes big-endian. -/
def read32 (st : DecSt) : DRes Nat :=
  if st.offset + 4 > st.data.length then
    (Except.error (DErr.err "reading four bytes exceeds buffer size"), st)
  else
    (Except.ok (beVal ((st.data.drop st.offset).take 4)), ⟨st.data, st.offset + 4⟩)

/-- Decoder.read64: eight bytes big-endian. -/
def read64 (st : DecSt) : DRes Nat :=
  if st.offset + 8 > st.data.length then
    (Except.error (DErr.err "reading eight bytes exceeds buffer size"), st)
  else
    (Except.ok (beVal ((st.data.drop st.offset).take 8)), ⟨st.data, st.offset + 8⟩)

/-- Decoder.readString: length-checked slice of `length` bytes at the offset
(the Go code returns it as a string; strings are byte lists here). -/
def readString (length : Nat) (st : DecSt) : DRes Bytes :=
  if st.offset + length > st.data.length then
    (Except.error (DErr.err "reading sequence past the end of the buffer"), st)
  else
    (Except.ok ((st.data.drop st.offset).take length), ⟨st.data, st.offset + length⟩)

/-- Reinterpret an unsigned 32-bit value as Go int32 (two's complement). -/
def toInt32 (v : Nat) : Int :=
  if v < 2 ^ 31 then (v : Int) else (v : Int) - 2 ^ 32

/-- Digits of `v` in base 10, most significant first (helper for
uint64ToString of decoder.go). -/
def decDigits (v : Nat) : Bytes :=
  if h : v = 0 then [] else decDigits (v / 10) ++ [v % 10 + 48]
decreasing_by exact Nat.div_lt_self (Nat.pos_of_ne_zero h) (by omega)

/-- uint64ToString of decoder.go: decimal text of an unsigned value. -/
def uint64ToString (v : Nat) : Bytes :=
  if v = 0 then [48] else decDigits v

/-- External library calls used by the codec, kept abstract: zlib inflation
(`none` models a stream the reader rejects), strconv.ParseFloat (returning the
bit pattern of the parsed float64, `none` on parse failure), and
strconv.FormatFloat applied to a float64 bit pattern. -/
structure Ext where
  inflate : Bytes → Option Bytes
  parseFloat : Bytes → Option Nat
  formatFloat : Nat → Bytes

/-- Go dynamic values produced by the tree decoder, one constructor per Go
dynamic type the decoder can return: nil, bool, int, int32, uint32, float64
(as its bit pattern), string (byte list), []any, map[string]any (association
list in insertion order). -/
inductive GoVal where
  | gnil
  | gbool (b : Bool)
  | gint (n : Nat)
  | gint32 (n : Int)
  | guint32 (n : Nat)
  | gfloat64 (bits : Nat)
  | gstr (s : Bytes)
  | glist (xs : List GoVal)
  | gmap (entries : List (Bytes × GoVal))
deriving Repr

/-- Decoder.decodeSmallInteger: one byte as a Go int. -/
def decodeSmallInteger (st : DecSt) : DRes GoVal :=
  dbind (read8 st) fun v st => (Except.ok (GoVal.gint v), st)

/-- Decoder.decodeInteger: four bytes as a Go int32. -/
def decodeInteger (st : DecSt) : DRes GoVal :=
  dbind (read32 st) fun v st => (Except.ok (GoVal.gint32 (toInt32 v)), st)

/-- Truncation at the first NUL byte (bytes.IndexByte in decodeFloat). -/
def trimAtNul (s : Bytes) : Bytes :=
  s.takeWhile (fun b => b ≠ 0)

/-- Decoder.decodeFloat (tag 99): 31 text bytes, NUL-trimmed, parsed by
strconv.ParseFloat. -/
def decodeFloat (ext : Ext) (st : DecSt) : DRes GoVal :=
  dbind (readString 31 st) fun s st =>
    match ext.parseFloat (trimAtNul s) with
    | none => (Except.error (DErr.err "invalid float encoded"), st)
    | some bits => (Except.ok (GoVal.gfloat64 bits), st)

/-- Decoder.decodeNewFloat (tag 70): eight bytes, math.Float64frombits is the
identity on the bit pattern. -/
def decodeNewFloat (st : DecSt) : DRes GoVal :=
  dbind (read64 st) fun bits st => (Except.ok (GoVal.gfloat64 bits), st)

/-- Decoder.processAtom: text-equality classification of atom bytes against
the literals `nil`, `null`, `true`, `false` (written as ASCII byte lists). -/
def processAtom (atom : Bytes) : GoVal :=
  if atom = [] then GoVal.gnil
  else if atom = [110, 105, 108] then GoVal.gnil
  else if atom = [110, 117, 108, 108] then GoVal.gnil
  else if atom = [116, 114, 117, 101] then GoVal.gbool true
  else if atom = [102, 97, 108, 115, 101] then GoVal.gbool false
  else GoVal.gstr atom

/-- Decoder.decodeAtom (tag 100): 2-byte length, then atom text. -/
def decodeAtom (st : DecSt) : DRes GoVal :=
  dbind (read16 st) fun length st =>
    dbind (readString length st) fun atom st => (Except.ok (processAtom atom), st)

/-- Decoder.decodeSmallAtom (tag 115): 1-byte length, then atom text. -/
def decodeSmallAtom (st : DecSt) : DRes GoVal :=
  dbind (read8 st) fun length st =>
    dbind (readString length st) fun atom st => (Except.ok (processAtom atom), st)

/-- Decoder.decodeBinaryAsString (tag 109): 4-byte length, then raw bytes. -/
def decodeBinaryAsString (st : DecSt) : DRes GoVal :=
  dbind (read32 st) fun length st =>
    dbind (readString length st) fun s st => (Except.ok (GoVal.gstr s), st)

/-- The element loop of Decoder.decodeStringAsList: `n` calls to
decodeSmallInteger collected in order. -/
def readSmallInts : Nat → DecSt → DRes (List GoVal)
  | 0, st => (Except.ok [], st)
  | n + 1, st =>
    dbind (read8 st) fun v st =>
      dbind (readSmallInts n st) fun vs st => (Except.ok (GoVal.gint v :: vs), st)

/-- Decoder.decodeStringAsList (tag 107): 2-byte length, a bounds pre-check,
then each byte decoded as a small integer into a []any. -/
def decodeStringAsList (st : DecSt) : DRes GoVal :=
  dbind (read16 st) fun length st =>
    if st.offset + length > st.data.length then
      (Except.error (DErr.err "reading sequence past the end of the buffer (1)"), st)
    else
      dbind (readSmallInts length st) fun vs st => (Except.ok (GoVal.glist vs), st)

/-- The digit loop of Decoder.decodeBig: little-endian base-256 accumulation
(`value += digit * b; b <<= 8`). -/
def readBigValue : Nat → Nat → Nat → DecSt → DRes Nat
  | 0, value, _, st => (Except.ok value, st)
  | n + 1, value, b, st =>
    dbind (read8 st) fun digit st => readBigValue n (value + digit * b) (b * 256) st

/-- Decoder.decodeBig: sign byte, magnitude cap at 8 digit-bytes, little-endian
accumulation, then result selection: digits <= 4 with sign 0 gives a uint32,
digits <= 4 with nonzero sign and bit 31 clear gives a negated int32, and every
other case formats a decimal string (with leading minus when signed). -/
def decodeBig (digits : Nat) (st : DecSt) : DRes GoVal :=
  dbind (read8 st) fun sign st =>
    if digits > 8 then
      (Except.error (DErr.err "Unable to decode big ints larger than 8 bytes"), st)
    else
      dbind (readBigValue digits 0 1 st) fun value st =>
        if digits ≤ 4 ∧ sign = 0 then
          (Except.ok (GoVal.guint32 (value % 2 ^ 32)), st)
        else if digits ≤ 4 ∧ sign ≠ 0 ∧ value &&& 2 ^ 31 = 0 then
          (Except.ok (GoVal.gint32 (-((value % 2 ^ 32 : Nat) : Int))), st)
        else if sign ≠ 0 then
          (Except.ok (GoVal.gstr (45 :: uint64ToString value)), st)
        else
          (Except.ok (GoVal.gstr (uint64ToString value)), st)

/-- keyToString of decoder.go, restricted to the dynamic types the tree
decoder can produce: strings pass through, Go ints and bools and floats are
formatted, and the default branch yields the reflect type name; a nil key hits
reflect.Value.Type on the zero Value, which panics. -/
def keyToString (ext : Ext) (key : GoVal) : Except DErr Bytes :=
  match key with
  | GoVal.gstr s => Except.ok s
  | GoVal.gint n => Except.ok (uint64ToString n)
  | GoVal.gbool b =>
    Except.ok (if b then [116, 114, 117, 101] else [102, 97, 108, 115, 101])
  | GoVal.gfloat64 bits => Except.ok (ext.formatFloat bits)
  | GoVal.gnil => Except.error (DErr.panicked "reflect: call of reflect.Value.Type on zero Value")
  | GoVal.gint32 _ => Except.ok [105, 110, 116, 51, 50] -- reflect type name "int32"
  | GoVal.guint32 _ => Except.ok [117, 105, 110, 116, 51, 50] -- "uint32"
  | GoVal.glist _ => -- reflect type name of []any
    Except.ok [91, 93, 105, 110, 116, 101, 114, 102, 97, 99, 101, 32, 123, 125]
  | GoVal.gmap _ => -- reflect type name of map[string]any
    Except.ok [109, 97, 112, 91, 115, 116, 114, 105, 110, 103, 93, 105, 110, 116,
               101, 114, 102, 97, 99, 101, 32, 123, 125]

/-- Go map update `m[k] = v`: replace the existing entry for `k`, else append. -/
def mapInsert (l : List (Bytes × GoVal)) (k : Bytes) (v : GoVal) : List (Bytes × GoVal) :=
  match l with
  | [] => [(k, v)]
  | (k', v') :: t => if k' = k then (k', v) :: t else (k', v') :: mapInsert t k v

mutual

/-- Decoder.decode: tag dispatch.  The fuel argument is an embedding artifact
bounding recursion depth; every theorem supplies sufficient fuel. -/
def decodeF (ext : Ext) : Nat → DecSt → DRes GoVal
  | 0, st => (Except.error (DErr.err "recursion fuel exhausted"), st)
  | f + 1, st =>
    dbind (read8 st) fun tag st =>
      if tag = SMALL_INTEGER_EXT then decodeSmallInteger st
      else if tag = INTEGER_EXT then decodeInteger st
      else if tag = FLOAT_EXT then decodeFloat ext st
      else if tag = NEW_FLOAT_EXT then decodeNewFloat st
      else if tag = ATOM_EXT then decodeAtom st
      else if tag = SMALL_ATOM_EXT then decodeSmallAtom st
      else if tag = SMALL_TUPLE_EXT then
        dbind (read8 st) fun n st =>
          dbind (decodeArrayF ext f n st) fun xs st => (Except.ok (GoVal.glist xs), st)
      else if tag = LARGE_TUPLE_EXT then
        dbind (read32 st) fun n st =>
          dbind (decodeArrayF ext f n st) fun xs st => (Except.ok (GoVal.glist xs), st)
      else if tag = NIL_EXT then (Except.ok (GoVal.glist []), st)
      else if tag = STRING_EXT then decodeStringAsList st
      else if tag = LIST_EXT then
        dbind (read32 st) fun n st =>
          dbind (decodeArrayF ext f n st) fun xs st =>
            dbind (read8 st) fun tail st =>
              if tail ≠ NIL_EXT then
                (Except.error (DErr.err "list doesn\x27t end with a tail marker, but it must"), st)
              else (Except.ok (GoVal.glist xs), st)
      else if tag = MAP_EXT then
        dbind (read32 st) fun n st =>
          dbind (decodeMapF ext f n [] st) fun entries st => (Except.ok (GoVal.gmap entries), st)
      else if tag = BINARY_EXT then decodeBinaryAsString st
      else if tag = SMALL_BIG_EXT then
        dbind (read8 st) fun n st => decodeBig n st
      else if tag = LARGE_BIG_EXT then
        dbind (read32 st) fun n st => decodeBig n st
      else if tag = COMPRESSED then decodeCompressedF ext f st
      else (Except.error (DErr.err ("unsupported tag: " ++ toString tag)), st)
  termination_by f => (f, 0)

/-- Decoder.decodeArray: `n` recursive term decodes collected in order. -/
def decodeArrayF (ext : Ext) : Nat → Nat → DecSt → DRes (List GoVal)
  | _, 0, st => (Except.ok [], st)
  | f, n + 1, st =>
    dbind (decodeF ext f st) fun v st =>
      dbind (decodeArrayF ext f n st) fun vs st => (Except.ok (v :: vs), st)
  termination_by f n => (f, n + 2)

/-- Decoder.decodeMap entry loop: key term, value term, stringified key, map
update; `acc` is the map built so far. -/
def decodeMapF (ext : Ext) :
    Nat → Nat → List (Bytes × GoVal) → DecSt → DRes (List (Bytes × GoVal))
  | _, 0, acc, st => (Except.ok acc, st)
  | f, n + 1, acc, st =>
    dbind (decodeF ext f st) fun k st =>
      dbind (decodeF ext f st) fun v st =>
        match keyToString ext k with
        | Except.error e => (Except.error e, st)
        | Except.ok ks => decodeMapF ext f n (mapInsert acc ks v) st
  termination_by f n => (f, n + 2)

/-- Decoder.decodeCompressed (tag 80): 4-byte declared size, zlib inflation of
the remaining bytes, io.ReadFull into a buffer of the declared size (failing
when fewer inflated bytes exist), offset advanced by the declared size, then a
nested unpack of the inflated prefix. -/
def decodeCompressedF (ext : Ext) (f : Nat) (st : DecSt) : DRes GoVal :=
  dbind (read32 st) fun size st =>
    match ext.inflate (st.data.drop st.offset) with
    | none => (Except.error (DErr.err "failed to create zlib reader"), st)
    | some inf =>
      if size ≤ inf.length then
        unpackF ext f (inf.take size) ⟨st.data, st.offset + size⟩
      else (Except.error (DErr.err "failed to decompress data"), st)
  termination_by (f, 2)

/-- Decoder.unpack: version-byte check, then `d.data = data[1:]` with the
offset left as it was, one term decode, and `d.reset()` (data nil, offset 0)
before returning. -/
def unpackF (ext : Ext) (f : Nat) (payload : Bytes) (st : DecSt) : DRes GoVal :=
  if payload.head? = some FORMAT_VERSION then
    ((decodeF ext f ⟨payload.drop 1, st.offset⟩).1, ⟨[], 0⟩)
  else (Except.error (DErr.err "invalid or missing format version"), st)
  termination_by (f, 1)

end

/-- Etf.Unpack of main.go: a fresh or reset decoder has offset 0 and nil data. -/
def Unpack (ext : Ext) (f : Nat) (data : Bytes) : Except DErr GoVal :=
  (unpackF ext f data ⟨[], 0⟩).1

/-- Etf.UnpackToBytes of main.go: Unpack, then json.Marshal of the decoded
tree.  The marshaller is an external library, passed in as `marshal` (it does
not fail on the value shapes the decoder produces). -/
def UnpackToBytes (ext : Ext) (marshal : GoVal → Bytes) (f : Nat) (data : Bytes) :
    Except DErr Bytes :=
  match Unpack ext f data with
  | Except.error e => Except.error e
  | Except.ok decoded => Except.ok (marshal decoded)

/-- Generic values accepted by Encoder.rawPack, one constructor per dynamic
shape the type switch handles: nil, bool, int (covering Go int/int32/int64
inputs), float64 (bit pattern), string, []any, a typed slice or array reached
through reflection, map[string]any (entries in the modelled iteration order),
and a value of an unsupported dynamic type carrying its type name. -/
inductive EncVal where
  | enull
  | ebool (b : Bool)
  | eint (n : Int)
  | efloat64 (bits : Nat)
  | estr (s : Bytes)
  | elist (xs : List EncVal)
  | eslice (xs : List EncVal)
  | emap (m : List (Bytes × EncVal))
  | eother (tyName : String)
deriving Repr

/-- Encoder failure: the Go encoder reports failures only by panicking. -/
inductive EErr where
  | panicked (msg : String)
deriving Repr, DecidableEq

/-- Big-endian bytes of the low 16 bits (Encoder.AppendUint16). -/
def u16be (n : Nat) : Bytes :=
  [n / 2 ^ 8 % 256, n % 256]

/-- Big-endian bytes of the low 32 bits (Encoder.AppendUint32). -/
def u32be (n : Nat) : Bytes :=
  [n / 2 ^ 24 % 256, n / 2 ^ 16 % 256, n / 2 ^ 8 % 256, n % 256]

/-- Big-endian bytes of the low 64 bits (Encoder.AppendFloat64 writes the
float64 bit pattern this way). -/
def u64be (n : Nat) : Bytes :=
  [n / 2 ^ 56 % 256, n / 2 ^ 48 % 256, n / 2 ^ 40 % 256, n / 2 ^ 32 % 256,
   n / 2 ^ 24 % 256, n / 2 ^ 16 % 256, n / 2 ^ 8 % 256, n % 256]

/-- Encoder.AppendBinary: binary tag, uint32(len(s)) big-endian, raw bytes. -/
def appendBinary (s : Bytes) : Bytes :=
  BINARY_EXT :: u32be (s.length % 2 ^ 32) ++ s

/-- Encoder.AppendInt: small-integer tag for 0..255, else integer tag plus
uint32(int32(v)) big-endian, which is v mod 2^32. -/
def appendInt (v : Int) : Bytes :=
  if 0 ≤ v ∧ v ≤ 255 then [SMALL_INTEGER_EXT, v.toNat]
  else INTEGER_EXT :: u32be ((v % 2 ^ 32).toNat)

/-- Encoder.AppendNil: small atom `nil`. -/
def appendNil : Bytes :=
  [SMALL_ATOM_EXT, 3, 110, 105, 108]

/-- Encoder.AppendBool: small atom `true` or `false`. -/
def appendBool (b : Bool) : Bytes :=
  if b then [SMALL_ATOM_EXT, 4, 116, 114, 117, 101]
  else [SMALL_ATOM_EXT, 5, 102, 97, 108, 115, 101]

mutual

/-- Encoder.rawPack: dispatch on the dynamic shape of the value.  A `panic`
in the Go code is the `EErr.panicked` error here; it aborts the whole call
with no bytes returned. -/
def rawPack : EncVal → Except EErr Bytes
  | EncVal.enull => Except.ok appendNil
  | EncVal.ebool b => Except.ok (appendBool b)
  | EncVal.eint v => Except.ok (appendInt v)
  | EncVal.efloat64 bits => Except.ok (NEW_FLOAT_EXT :: u64be bits)
  | EncVal.estr s => Except.ok (appendBinary s)
  | EncVal.elist xs =>
    match rawPackList xs with
    | Except.error e => Except.error e
    | Except.ok body =>
      Except.ok (LIST_EXT :: u32be (xs.length % 2 ^ 32) ++ body ++ [NIL_EXT])
  | EncVal.eslice xs =>
    if xs.length = 0 then Except.ok [NIL_EXT]
    else if xs.length > 2 ^ 32 - 2 then Except.error (EErr.panicked "List is too large")
    else
      match rawPackList xs with
      | Except.error e => Except.error e
      | Except.ok body =>
        Except.ok (LIST_EXT :: u32be (xs.length % 2 ^ 32) ++ body ++ [NIL_EXT])
  | EncVal.emap m =>
    if m.length > 2 ^ 32 - 2 then Except.error (EErr.panicked "Dictionary has too many properties")
    else
      match rawPackEntries m with
      | Except.error e => Except.error e
      | Except.ok body => Except.ok (MAP_EXT :: u32be (m.length % 2 ^ 32) ++ body)
  | EncVal.eother ty => Except.error (EErr.panicked ("Unsupported etf type: " ++ ty))

/-- Element loop shared by the []any and reflect.Slice branches of rawPack. -/
def rawPackList : List EncVal → Except EErr Bytes
  | [] => Except.ok []
  | x :: xs =>
    match rawPack x with
    | Except.error e => Except.error e
    | Except.ok bx =>
      match rawPackList xs with
      | Except.error e => Except.error e
      | Except.ok rest => Except.ok (bx ++ rest)

/-- Entry loop of Encoder.AppendMap: each key as a binary term, then the value
as a full term. -/
def rawPackEntries : List (Bytes × EncVal) → Except EErr Bytes
  | [] => Except.ok []
  | (k, v) :: t =>
    match rawPack v with
    | Except.error e => Except.error e
    | Except.ok bv =>
      match rawPackEntries t with
      | Except.error e => Except.error e
      | Except.ok rest => Except.ok (appendBinary k ++ bv ++ rest)

end

/-- Encoder.Pack: format-version byte plus one raw term. -/
def Pack (v : EncVal) : Except EErr Bytes :=
  match rawPack v with
  | Except.error e => Except.error e
  | Except.ok bs => Except.ok (FORMAT_VERSION :: bs)

mutual

/-- The Go value the tree decoder reconstructs from an encoded `EncVal`:
integers 0..255 come back as Go int, other integers as int32, and both list
shapes come back as []any. -/
def toGo : EncVal → GoVal
  | EncVal.enull => GoVal.gnil
  | EncVal.ebool b => GoVal.gbool b
  | EncVal.eint v =>
    if 0 ≤ v ∧ v ≤ 255 then GoVal.gint v.toNat
    else GoVal.gint32 (toInt32 (v % 2 ^ 32).toNat)
  | EncVal.efloat64 bits => GoVal.gfloat64 bits
  | EncVal.estr s => GoVal.gstr s
  | EncVal.elist xs => GoVal.glist (toGoList xs)
  | EncVal.eslice xs => GoVal.glist (toGoList xs)
  | EncVal.emap m => GoVal.gmap (toGoEntries m)
  | EncVal.eother _ => GoVal.gnil

def toGoList : List EncVal → List GoVal
  | [] => []
  | x :: xs => toGo x :: toGoList xs

def toGoEntries : List (Bytes × EncVal) → List (Bytes × GoVal)
  | [] => []
  | (k, v) :: t => (k, toGo v) :: toGoEntries t

end

/-- Key `k` does not occur among the keys of an encoder map tail. -/
def keyNotIn (k : Bytes) : List (Bytes × EncVal) → Bool
  | [] => true
  | (k', _) :: t => decide (k' ≠ k) && keyNotIn k t

mutual

/-- Supported well-formed values for the round-trip claim: integers within
int32 range, float bit patterns of 64 bits, string and collection lengths
within the 32-bit count, map keys distinct (a Go map invariant), and no
unsupported shapes. -/
def WF : EncVal → Bool
  | EncVal.enull => true
  | EncVal.ebool _ => true
  | EncVal.eint v => decide (-(2 ^ 31) ≤ v) && decide (v < 2 ^ 31)
  | EncVal.efloat64 bits => decide (bits < 2 ^ 64)
  | EncVal.estr s => decide (s.length < 2 ^ 32)
  | EncVal.elist xs => decide (xs.length < 2 ^ 32) && WFList xs
  | EncVal.eslice xs => decide (xs.length ≤ 2 ^ 32 - 2) && WFList xs
  | EncVal.emap m => decide (m.length ≤ 2 ^ 32 - 2) && WFEntries m
  | EncVal.eother _ => false

def WFList : List EncVal → Bool
  | [] => true
  | x :: xs => WF x && WFList xs

def WFEntries : List (Bytes × EncVal) → Bool
  | [] => true
  | (k, v) :: t => decide (k.length < 2 ^ 32) && keyNotIn k t && WF v && WFEntries t

end

mutual

/-- Nesting depth of a value: the recursion fuel the fueled decoder needs. -/
def depth : EncVal → Nat
  | EncVal.elist xs => 1 + depthList xs
  | EncVal.eslice xs => 1 + depthList xs
  | EncVal.emap m => 1 + depthEntries m
  | _ => 1

def depthList : List EncVal → Nat
  | [] => 0
  | x :: xs => max (depth x) (depthList xs)

def depthEntries : List (Bytes × EncVal) → Nat
  | [] => 0
  | (_, v) :: t => max (depth v) (depthEntries t)

end

mutual

/-- Agreement between an encoder input and a decoded Go value: equal up to the
Go dynamic-type bookkeeping the codec performs (int may come back as int32,
both list shapes come back as []any); numbers, float bit patterns, strings,
sequence elements and map keys/values must match exactly. -/
def ValAgrees : EncVal → GoVal → Bool
  | EncVal.enull, GoVal.gnil => true
  | EncVal.ebool b, GoVal.gbool b' => b == b'
  | EncVal.eint v, GoVal.gint n => decide (v = (n : Int))
  | EncVal.eint v, GoVal.gint32 n => decide (v = n)
  | EncVal.eint v, GoVal.guint32 n => decide (v = (n : Int))
  | EncVal.efloat64 bits, GoVal.gfloat64 bits' => bits == bits'
  | EncVal.estr s, GoVal.gstr s' => s == s'
  | EncVal.elist xs, GoVal.glist ys => ValAgreesList xs ys
  | EncVal.eslice xs, GoVal.glist ys => ValAgreesList xs ys
  | EncVal.emap m, GoVal.gmap m' => ValAgreesEntries m m'
  | _, _ => false

def ValAgreesList : List EncVal → List GoVal → Bool
  | [], [] => true
  | x :: xs, y :: ys => ValAgrees x y && ValAgreesList xs ys
  | _, _ => false

def ValAgreesEntries : List (Bytes × EncVal) → List (Bytes × GoVal) → Bool
  | [], [] => true
  | (k, v) :: t, (k', v') :: t' => k == k' && ValAgrees v v' && ValAgreesEntries t t'
  | _, _ => false

end

/-- Key `k` does not occur among the keys of a decoded map accumulator. -/
def notKeyOf (k : Bytes) : List (Bytes × GoVal) → Bool
  | [] => true
  | (k', _) :: t => decide (k' ≠ k) && notKeyOf k t

/-- Every key of the remaining encoder entries is absent from the decoded
accumulator. -/
def accFresh (acc : List (Bytes × GoVal)) : List (Bytes × EncVal) → Bool
  | [] => true
  | (k, _) :: t => notKeyOf k acc && accFresh acc t

/-- Trivial external-library instance for concrete evaluations. -/
def extTriv : Ext :=
  ⟨fun _ => none, fun _ => none, fun _ => []⟩

/-- External-library instance whose zlib reader inflates the two-byte stream
`[67, 67]` to the four-byte term stream `[131, 97, 5, 0]` (version byte, small
integer 5, one trailing byte), rejecting every other stream. -/
def extC6 : Ext :=
  ⟨fun bs => if bs = [67, 67] then some [131, 97, 5, 0] else none, fun _ => none, fun _ => []⟩

/-- Whether a decoded value is a native 32-bit number (Go uint32 or int32). -/
def isNative32 : GoVal → Bool
  | GoVal.guint32 _ => true
  | GoVal.gint32 _ => true
  | _ => false

/-- Whether a decoded value is a Go string. -/
def isGoString : GoVal → Bool
  | GoVal.gstr _ => true
  | _ => false

/-- Little-endian base-256 value of a digit list (`value = sum digit_i * 256^i`,
the accumulation decodeBig performs). -/
def leVal : Bytes → Nat
  | [] => 0
  | d :: ds => d + 256 * leVal ds

theorem length_drop_eq {data : Bytes} {off : Nat} {bs rest : Bytes}
    (h : data.drop off = bs ++ rest) : data.length - off = bs.length + rest.length := by
  have := congrArg List.length h
  simpa using this

theorem take_of_append {data : Bytes} {off n : Nat} {bs rest : Bytes}
    (h : data.drop off = bs ++ rest) (hn : bs.length = n) :
    (data.drop off).take n = bs := by
  rw [h, ← hn, List.take_left]

theorem drop_of_append {data : Bytes} {off n : Nat} {bs rest : Bytes}
    (h : data.drop off = bs ++ rest) (hn : bs.length = n) :
    data.drop (off + n) = rest := by
  have h2 : (data.drop off).drop n = rest := by rw [h, ← hn, List.drop_left]
  rw [← h2, List.drop_drop, Nat.add_comm]

theorem read8_cons {data : Bytes} {off b : Nat} {rest : Bytes}
    (h : data.drop off = b :: rest) :
    read8 ⟨data, off⟩ = (Except.ok b, ⟨data, off + 1⟩) := by
  have hl : data.length - off = rest.length + 1 := by
    have := congrArg List.length h
    simpa using this
  unfold read8
  rw [if_neg (by simp only; omega), h]
  rfl

theorem read16_append {data : Bytes} {off : Nat} {bs rest : Bytes}
    (h : data.drop off = bs ++ rest) (hl : bs.length = 2) :
    read16 ⟨data, off⟩ = (Except.ok (beVal bs), ⟨data, off + 2⟩) := by
  have hlen := length_drop_eq h
  unfold read16
  rw [if_neg (by simp only; omega), take_of_append h hl]

theorem read32_append {data : Bytes} {off : Nat} {bs rest : Bytes}
    (h : data.drop off = bs ++ rest) (hl : bs.length = 4) :
    read32 ⟨data, off⟩ = (Except.ok (beVal bs), ⟨data, off + 4⟩) := by
  have hlen := length_drop_eq h
  unfold read32
  rw [if_neg (by simp only; omega), take_of_append h hl]

theorem read64_append {data : Bytes} {off : Nat} {bs rest : Bytes}
    (h : data.drop off = bs ++ rest) (hl : bs.length = 8) :
    read64 ⟨data, off⟩ = (Except.ok (beVal bs), ⟨data, off + 8⟩) := by
  have hlen := length_drop_eq h
  unfold read64
  rw [if_neg (by simp only; omega), take_of_append h hl]

theorem readString_append {data : Bytes} {off : Nat} {s rest : Bytes}
    (h : data.drop off = s ++ rest) (hoff : off ≤ data.length) :
    readString s.length ⟨data, off⟩ = (Except.ok s, ⟨data, off + s.length⟩) := by
  have hlen := length_drop_eq h
  unfold readString
  rw [if_neg (by simp only; omega), take_of_append h rfl]

theorem beVal_u16 {n : Nat} (hn : n < 2 ^ 16) : beVal (u16be n) = n := by
  simp only [beVal, u16be, List.foldl]
  omega

theorem beVal_u32 {n : Nat} (hn : n < 2 ^ 32) : beVal (u32be n) = n := by
  simp only [beVal, u32be, List.foldl]
  omega

theorem beVal_u64 {n : Nat} (hn : n < 2 ^ 64) : beVal (u64be n) = n := by
  simp only [beVal, u64be, List.foldl]
  omega

theorem u16be_length (n : Nat) : (u16be n).length = 2 := rfl

theorem u32be_length (n : Nat) : (u32be n).length = 4 := rfl

theorem u64be_length (n : Nat) : (u64be n).length = 8 := rfl

theorem dbind_ok {α β : Type} (a : α) (st : DecSt) (k : α → DecSt → DRes β) :
    dbind (Except.ok a, st) k = k a st := rfl

theorem dbind_err {α β : Type} (e : DErr) (st : DecSt) (k : α → DecSt → DRes β) :
    dbind (Except.error e, st) k = (Except.error e, st) := rfl

theorem drop_cons {data : Bytes} {off b : Nat} {rest : Bytes}
    (h : data.drop off = b :: rest) : data.drop (off + 1) = rest := by
  have h' : data.drop off = [b] ++ rest := by simpa using h
  exact drop_of_append h' rfl

theorem le_of_drop_cons {data : Bytes} {off b : Nat} {rest : Bytes}
    (h : data.drop off = b :: rest) : off + 1 ≤ data.length := by
  have := congrArg List.length h
  simp at this
  omega

theorem decodeSmallAtom_spec {data : Bytes} {off : Nat} {a rest : Bytes}
    (h : data.drop off = a.length :: (a ++ rest)) :
    decodeSmallAtom ⟨data, off⟩ = (Except.ok (processAtom a), ⟨data, off + 1 + a.length⟩) := by
  unfold decodeSmallAtom
  rw [read8_cons h, dbind_ok, readString_append (drop_cons h) (le_of_drop_cons h), dbind_ok]

theorem decodeBinaryAsString_spec {data : Bytes} {off : Nat} {s rest : Bytes}
    (hs : s.length < 2 ^ 32) (h : data.drop off = u32be s.length ++ (s ++ rest)) :
    decodeBinaryAsString ⟨data, off⟩ =
      (Except.ok (GoVal.gstr s), ⟨data, off + 4 + s.length⟩) := by
  unfold decodeBinaryAsString
  rw [read32_append h (u32be_length _), dbind_ok, beVal_u32 hs]
  have hoff : off + 4 ≤ data.length := by
    have := length_drop_eq h
    simp [u32be_length] at this
    omega
  rw [readString_append (drop_of_append h (u32be_length _)) hoff, dbind_ok]

theorem decodeInteger_spec {data : Bytes} {off n : Nat} {rest : Bytes}
    (hn : n < 2 ^ 32) (h : data.drop off = u32be n ++ rest) :
    decodeInteger ⟨data, off⟩ = (Except.ok (GoVal.gint32 (toInt32 n)), ⟨data, off + 4⟩) := by
  unfold decodeInteger
  rw [read32_append h (u32be_length _), dbind_ok, beVal_u32 hn]

theorem decodeNewFloat_spec {data : Bytes} {off bits : Nat} {rest : Bytes}
    (hb : bits < 2 ^ 64) (h : data.drop off = u64be bits ++ rest) :
    decodeNewFloat ⟨data, off⟩ = (Except.ok (GoVal.gfloat64 bits), ⟨data, off + 8⟩) := by
  unfold decodeNewFloat
  rw [read64_append h (u64be_length _), dbind_ok, beVal_u64 hb]

theorem dres_eq {α : Type} {r1 r2 : Except DErr α} {d : Bytes} {o1 o2 : Nat}
    (hr : r1 = r2) (ho : o1 = o2) : (r1, (⟨d, o1⟩ : DecSt)) = (r2, ⟨d, o2⟩) := by
  subst hr
  subst ho
  rfl

theorem keyToString_gstr (ext : Ext) (s : Bytes) : keyToString ext (GoVal.gstr s) = Except.ok s :=
  rfl

theorem mapInsert_of_notKeyOf {acc : List (Bytes × GoVal)} {k : Bytes} (v : GoVal)
    (h : notKeyOf k acc = true) : mapInsert acc k v = acc ++ [(k, v)] := by
  induction acc with
  | nil => rfl
  | cons hd t ih =>
    obtain ⟨k', v'⟩ := hd
    simp only [notKeyOf, Bool.and_eq_true, decide_eq_true_eq] at h
    simp only [mapInsert, if_neg h.1, List.cons_append, List.cons.injEq, true_and]
    exact ih h.2

theorem notKeyOf_append {k k2 : Bytes} {acc : List (Bytes × GoVal)} {w : GoVal}
    (h1 : notKeyOf k acc = true) (h2 : k2 ≠ k) :
    notKeyOf k (acc ++ [(k2, w)]) = true := by
  induction acc with
  | nil => simp [notKeyOf, h2]
  | cons hd t ih =>
    obtain ⟨k', v'⟩ := hd
    simp only [notKeyOf, Bool.and_eq_true, decide_eq_true_eq] at h1
    simp only [List.cons_append, notKeyOf, Bool.and_eq_true, decide_eq_true_eq]
    exact ⟨h1.1, ih h1.2⟩

theorem accFresh_nil (m : List (Bytes × EncVal)) : accFresh [] m = true := by
  induction m with
  | nil => rfl
  | cons hd t ih =>
    obtain ⟨k, v⟩ := hd
    simp only [accFresh, notKeyOf, Bool.true_and]
    exact ih

theorem accFresh_append {acc : List (Bytes × GoVal)} {t : List (Bytes × EncVal)}
    {k : Bytes} {w : GoVal} (hf : accFresh acc t = true) (hk : keyNotIn k t = true) :
    accFresh (acc ++ [(k, w)]) t = true := by
  induction t with
  | nil => rfl
  | cons hd t2 ih =>
    obtain ⟨k2, v2⟩ := hd
    simp only [accFresh, Bool.and_eq_true] at hf
    simp only [keyNotIn, Bool.and_eq_true, decide_eq_true_eq] at hk
    simp only [accFresh, Bool.and_eq_true]
    exact ⟨notKeyOf_append hf.1 (Ne.symm hk.1), ih hf.2 hk.2⟩

theorem readBigValue_spec {ds : Bytes} :
    ∀ {data : Bytes} {off : Nat} {rest : Bytes} (value b : Nat),
    data.drop off = ds ++ rest →
    readBigValue ds.length value b ⟨data, off⟩ =
      (Except.ok (value + leVal ds * b), ⟨data, off + ds.length⟩) := by
  induction ds with
  | nil =>
    intro data off rest value b h
    simp [readBigValue, leVal]
  | cons d t ih =>
    intro data off rest value b h
    have h0 : data.drop off = d :: (t ++ rest) := by simpa using h
    simp only [List.length_cons, readBigValue, read8_cons h0, dbind_ok]
    rw [ih (value + d * b) (b * 256) (drop_cons h0)]
    refine dres_eq (congrArg Except.ok ?_) (by omega)
    simp only [leVal]
    ring

theorem readSmallInts_spec {ds : Bytes} :
    ∀ {data : Bytes} {off : Nat} {rest : Bytes},
    data.drop off = ds ++ rest →
    readSmallInts ds.length ⟨data, off⟩ =
      (Except.ok (ds.map GoVal.gint), ⟨data, off + ds.length⟩) := by
  induction ds with
  | nil =>
    intro data off rest h
    simp [readSmallInts]
  | cons d t ih =>
    intro data off rest h
    have h0 : data.drop off = d :: (t ++ rest) := by simpa using h
    simp only [List.length_cons, readSmallInts, read8_cons h0, dbind_ok]
    rw [ih (drop_cons h0), dbind_ok]
    exact dres_eq rfl (by omega)

theorem depth_pos (v : EncVal) : 1 ≤ depth v := by
  cases v <;> simp [depth]

mutual

theorem decodeF_rawPack (ext : Ext) (v : EncVal) (hwf : WF v = true) (f : Nat)
    (hf : depth v ≤ f) (data rest bs : Bytes) (off : Nat)
    (hbs : rawPack v = Except.ok bs) (h : data.drop off = bs ++ rest) :
    decodeF ext f ⟨data, off⟩ = (Except.ok (toGo v), ⟨data, off + bs.length⟩) := by
  have hd1 := depth_pos v
  cases f with
  | zero => exact absurd hf (by omega)
  | succ f =>
  cases v with
  | enull =>
    rw [rawPack] at hbs
    injection hbs with hbs
    subst hbs
    have h0 : data.drop off = 115 :: (3 :: ([110, 105, 108] ++ rest)) := by
      simpa [appendNil] using h
    rw [decodeF, read8_cons h0, dbind_ok]
    norm_num
    have h1 : data.drop (off + 1) = List.length [110, 105, 108] :: ([110, 105, 108] ++ rest) := by
      simpa using drop_cons h0
    rw [decodeSmallAtom_spec h1]
    exact dres_eq rfl (by norm_num [appendNil])
  | ebool b =>
    rw [rawPack] at hbs
    injection hbs with hbs
    subst hbs
    cases b with
    | true =>
      have h0 : data.drop off = 115 :: (4 :: ([116, 114, 117, 101] ++ rest)) := by
        simpa [appendBool] using h
      rw [decodeF, read8_cons h0, dbind_ok]
      norm_num
      have h1 : data.drop (off + 1) =
          List.length [116, 114, 117, 101] :: ([116, 114, 117, 101] ++ rest) := by
        simpa using drop_cons h0
      rw [decodeSmallAtom_spec h1]
      exact dres_eq rfl (by norm_num [appendBool])
    | false =>
      have h0 : data.drop off = 115 :: (5 :: ([102, 97, 108, 115, 101] ++ rest)) := by
        simpa [appendBool] using h
      rw [decodeF, read8_cons h0, dbind_ok]
      norm_num
      have h1 : data.drop (off + 1) =
          List.length [102, 97, 108, 115, 101] :: ([102, 97, 108, 115, 101] ++ rest) := by
        simpa using drop_cons h0
      rw [decodeSmallAtom_spec h1]
      exact dres_eq rfl (by norm_num [appendBool])
  | eint n =>
    rw [rawPack] at hbs
    injection hbs with hbs
    subst hbs
    rw [appendInt] at h
    by_cases hr : 0 ≤ n ∧ n ≤ 255
    · rw [if_pos hr] at h
      have h0 : data.drop off = 97 :: (n.toNat :: rest) := by simpa using h
      rw [decodeF, read8_cons h0, dbind_ok]
      norm_num
      unfold decodeSmallInteger
      rw [read8_cons (drop_cons h0), dbind_ok]
      rw [toGo, if_pos hr]
      exact dres_eq rfl (by simp [appendInt, if_pos hr] <;> omega)
    · rw [if_neg hr] at h
      have hm : (n % 2 ^ 32).toNat < 2 ^ 32 := by
        have h1 : 0 ≤ n % 2 ^ 32 := Int.emod_nonneg n (by norm_num)
        have h2 : n % 2 ^ 32 < 2 ^ 32 := Int.emod_lt_of_pos n (by norm_num)
        omega
      have h0 : data.drop off = 98 :: (u32be (n % 2 ^ 32).toNat ++ rest) := by
        simpa using h
      rw [decodeF, read8_cons h0, dbind_ok]
      norm_num
      rw [decodeInteger_spec hm (drop_cons h0)]
      rw [toGo, if_neg hr]
      exact dres_eq rfl (by simp [appendInt, if_neg hr, u32be] <;> omega)
  | efloat64 bits =>
    rw [rawPack] at hbs
    injection hbs with hbs
    subst hbs
    rw [WF] at hwf
    have hb : bits < 2 ^ 64 := by simpa using hwf
    have h0 : data.drop off = 70 :: (u64be bits ++ rest) := by simpa using h
    rw [decodeF, read8_cons h0, dbind_ok]
    norm_num
    rw [decodeNewFloat_spec hb (drop_cons h0)]
    exact dres_eq rfl (by simp [u64be] <;> omega)
  | estr s =>
    rw [rawPack] at hbs
    injection hbs with hbs
    subst hbs
    rw [WF] at hwf
    have hs : s.length < 2 ^ 32 := by simpa using hwf
    rw [appendBinary, Nat.mod_eq_of_lt hs] at h
    have h0 : data.drop off = 109 :: (u32be s.length ++ (s ++ rest)) := by
      simpa [List.append_assoc] using h
    rw [decodeF, read8_cons h0, dbind_ok]
    norm_num
    rw [decodeBinaryAsString_spec hs (drop_cons h0)]
    rw [toGo]
    exact dres_eq rfl (by simp [appendBinary, u32be] <;> omega)
  | elist xs =>
    rw [rawPack] at hbs
    cases hb : rawPackList xs with
    | error e => rw [hb] at hbs; exact absurd hbs (by simp)
    | ok body =>
    rw [hb] at hbs
    simp only [] at hbs
    injection hbs with hbs
    subst hbs
    rw [WF] at hwf
    simp only [Bool.and_eq_true, decide_eq_true_eq] at hwf
    obtain ⟨hlen, hwfl⟩ := hwf
    have hfl : depthList xs ≤ f := by
      rw [depth] at hf; omega
    rw [Nat.mod_eq_of_lt hlen] at h
    have h0 : data.drop off =
        108 :: (u32be xs.length ++ (body ++ (106 :: rest))) := by
      simpa [List.append_assoc] using h
    rw [decodeF, read8_cons h0, dbind_ok]
    norm_num
    rw [read32_append (drop_cons h0) (u32be_length _), dbind_ok, beVal_u32 hlen]
    have h1 : data.drop (off + 1 + 4) = body ++ (106 :: rest) :=
      drop_of_append (drop_cons h0) (u32be_length _)
    rw [decodeArrayF_rawPackList ext xs hwfl f hfl data (106 :: rest) body (off + 1 + 4) hb h1,
      dbind_ok]
    have h2 : data.drop (off + 1 + 4 + body.length) = 106 :: rest :=
      drop_of_append h1 rfl
    rw [read8_cons h2, dbind_ok]
    norm_num [toGo]
    simp only [u32be_length]
    omega
  | eslice xs =>
    rw [rawPack] at hbs
    rw [WF] at hwf
    simp only [Bool.and_eq_true, decide_eq_true_eq] at hwf
    obtain ⟨hlen, hwfl⟩ := hwf
    have hfl : depthList xs ≤ f := by
      rw [depth] at hf; omega
    by_cases hz : xs.length = 0
    · rw [if_pos hz] at hbs
      injection hbs with hbs
      subst hbs
      have hxs : xs = [] := List.length_eq_zero.mp hz
      subst hxs
      have h0 : data.drop off = 106 :: rest := by simpa using h
      rw [decodeF, read8_cons h0, dbind_ok]
      norm_num [toGo, toGoList]
    · rw [if_neg hz, if_neg (by omega)] at hbs
      cases hb : rawPackList xs with
      | error e => rw [hb] at hbs; exact absurd hbs (by simp)
      | ok body =>
      rw [hb] at hbs
      simp only [] at hbs
      injection hbs with hbs
      subst hbs
      have hlt : xs.length < 2 ^ 32 := by omega
      rw [Nat.mod_eq_of_lt hlt] at h
      have h0 : data.drop off =
          108 :: (u32be xs.length ++ (body ++ (106 :: rest))) := by
        simpa [List.append_assoc] using h
      rw [decodeF, read8_cons h0, dbind_ok]
      norm_num
      rw [read32_append (drop_cons h0) (u32be_length _), dbind_ok, beVal_u32 hlt]
      have h1 : data.drop (off + 1 + 4) = body ++ (106 :: rest) :=
        drop_of_append (drop_cons h0) (u32be_length _)
      rw [decodeArrayF_rawPackList ext xs hwfl f hfl data (106 :: rest) body (off + 1 + 4) hb h1,
        dbind_ok]
      have h2 : data.drop (off + 1 + 4 + body.length) = 106 :: rest :=
        drop_of_append h1 rfl
      rw [read8_cons h2, dbind_ok]
      norm_num [toGo]
      simp only [u32be_length]
      omega
  | emap m =>
    rw [rawPack] at hbs
    rw [WF] at hwf
    simp only [Bool.and_eq_true, decide_eq_true_eq] at hwf
    obtain ⟨hlen, hwfe⟩ := hwf
    rw [if_neg (by omega)] at hbs
    cases hb : rawPackEntries m with
    | error e => rw [hb] at hbs; exact absurd hbs (by simp)
    | ok body =>
    rw [hb] at hbs
    simp only [] at hbs
    injection hbs with hbs
    subst hbs
    have hfe : depthEntries m ≤ f := by
      rw [depth] at hf; omega
    have hlt : m.length < 2 ^ 32 := by omega
    rw [Nat.mod_eq_of_lt hlt] at h
    have h0 : data.drop off = 116 :: (u32be m.length ++ (body ++ rest)) := by
      simpa [List.append_assoc] using h
    rw [decodeF, read8_cons h0, dbind_ok]
    norm_num
    rw [read32_append (drop_cons h0) (u32be_length _), dbind_ok, beVal_u32 hlt]
    have h1 : data.drop (off + 1 + 4) = body ++ rest :=
      drop_of_append (drop_cons h0) (u32be_length _)
    rw [decodeMapF_rawPackEntries ext m hwfe f hfe [] (accFresh_nil m) data rest body
      (off + 1 + 4) hb h1, dbind_ok]
    rw [toGo]
    simp only [List.nil_append]
    exact dres_eq rfl (by simp [u32be] <;> omega)
  | eother ty =>
    rw [WF] at hwf
    exact absurd hwf (by simp)

theorem decodeArrayF_rawPackList (ext : Ext) (xs : List EncVal) (hwf : WFList xs = true)
    (f : Nat) (hf : depthList xs ≤ f) (data rest bs : Bytes) (off : Nat)
    (hbs : rawPackList xs = Except.ok bs) (h : data.drop off = bs ++ rest) :
    decodeArrayF ext f xs.length ⟨data, off⟩ =
      (Except.ok (toGoList xs), ⟨data, off + bs.length⟩) := by
  cases xs with
  | nil =>
    rw [rawPackList] at hbs
    injection hbs with hbs
    subst hbs
    rw [List.length_nil, decodeArrayF, toGoList]
    exact dres_eq rfl (by simp)
  | cons x t =>
    rw [rawPackList] at hbs
    cases hx : rawPack x with
    | error e => rw [hx] at hbs; exact absurd hbs (by simp)
    | ok bx =>
    rw [hx] at hbs
    simp only [] at hbs
    cases ht : rawPackList t with
    | error e => rw [ht] at hbs; exact absurd hbs (by simp)
    | ok bt =>
    rw [ht] at hbs
    simp only [] at hbs
    injection hbs with hbs
    subst hbs
    rw [WFList] at hwf
    simp only [Bool.and_eq_true] at hwf
    obtain ⟨hwfx, hwft⟩ := hwf
    have hfx : depth x ≤ f := by
      rw [depthList] at hf; omega
    have hft : depthList t ≤ f := by
      rw [depthList] at hf; omega
    have h1 : data.drop off = bx ++ (bt ++ rest) := by
      simpa [List.append_assoc] using h
    rw [List.length_cons, decodeArrayF]
    rw [decodeF_rawPack ext x hwfx f hfx data (bt ++ rest) bx off hx h1, dbind_ok]
    rw [decodeArrayF_rawPackList ext t hwft f hft data rest bt (off + bx.length) ht
      (drop_of_append h1 rfl), dbind_ok]
    rw [toGoList]
    exact dres_eq rfl (by simp <;> omega)

theorem decodeMapF_rawPackEntries (ext : Ext) (m : List (Bytes × EncVal))
    (hwf : WFEntries m = true) (f : Nat) (hf : depthEntries m ≤ f)
    (acc : List (Bytes × GoVal)) (hacc : accFresh acc m = true)
    (data rest bs : Bytes) (off : Nat)
    (hbs : rawPackEntries m = Except.ok bs) (h : data.drop off = bs ++ rest) :
    decodeMapF ext f m.length acc ⟨data, off⟩ =
      (Except.ok (acc ++ toGoEntries m), ⟨data, off + bs.length⟩) := by
  cases m with
  | nil =>
    rw [rawPackEntries] at hbs
    injection hbs with hbs
    subst hbs
    rw [List.length_nil, decodeMapF, toGoEntries]
    exact dres_eq (by simp) (by simp)
  | cons hd t =>
    obtain ⟨k, v⟩ := hd
    rw [rawPackEntries] at hbs
    cases hv : rawPack v with
    | error e => rw [hv] at hbs; exact absurd hbs (by simp)
    | ok bv =>
    rw [hv] at hbs
    simp only [] at hbs
    cases ht : rawPackEntries t with
    | error e => rw [ht] at hbs; exact absurd hbs (by simp)
    | ok bt =>
    rw [ht] at hbs
    simp only [] at hbs
    injection hbs with hbs
    subst hbs
    rw [WFEntries] at hwf
    simp only [Bool.and_eq_true, decide_eq_true_eq] at hwf
    obtain ⟨⟨⟨hk, hknt⟩, hwfv⟩, hwft⟩ := hwf
    rw [accFresh] at hacc
    simp only [Bool.and_eq_true] at hacc
    obtain ⟨hnk, hft2⟩ := hacc
    have hdv := depth_pos v
    have hfv : depth v ≤ f := by
      rw [depthEntries] at hf; omega
    have hfe : depthEntries t ≤ f := by
      rw [depthEntries] at hf; omega
    have hf1 : 1 ≤ f := by omega
    have h1 : data.drop off = appendBinary k ++ (bv ++ (bt ++ rest)) := by
      simpa [List.append_assoc] using h
    have hwfk : WF (EncVal.estr k) = true := by
      rw [WF]; simpa using hk
    have hdk : depth (EncVal.estr k) ≤ f := by
      simp only [depth]; omega
    have hbk : rawPack (EncVal.estr k) = Except.ok (appendBinary k) := by simp [rawPack]
    rw [List.length_cons, decodeMapF]
    rw [decodeF_rawPack ext (EncVal.estr k) hwfk f hdk data (bv ++ (bt ++ rest))
      (appendBinary k) off hbk h1]
    have htg : toGo (EncVal.estr k) = GoVal.gstr k := by simp [toGo]
    rw [htg, dbind_ok]
    rw [decodeF_rawPack ext v hwfv f hfv data (bt ++ rest) bv (off + (appendBinary k).length)
      hv (drop_of_append h1 rfl), dbind_ok]
    rw [keyToString_gstr]
    simp only []
    rw [mapInsert_of_notKeyOf (toGo v) hnk]
    rw [decodeMapF_rawPackEntries ext t hwft f hfe (acc ++ [(k, toGo v)])
      (accFresh_append hft2 hknt) data rest bt
      (off + (appendBinary k).length + bv.length) ht
      (drop_of_append (drop_of_append h1 rfl) rfl)]
    rw [toGoEntries]
    exact dres_eq (by simp) (by simp [appendBinary, u32be] <;> omega)

end

mutual

theorem rawPack_ok_of_WF (v : EncVal) (hwf : WF v = true) :
    ∃ bs, rawPack v = Except.ok bs := by
  cases v with
  | enull => exact ⟨appendNil, by rw [rawPack]⟩
  | ebool b => exact ⟨appendBool b, by rw [rawPack]⟩
  | eint n => exact ⟨appendInt n, by rw [rawPack]⟩
  | efloat64 bits => exact ⟨NEW_FLOAT_EXT :: u64be bits, by rw [rawPack]⟩
  | estr s => exact ⟨appendBinary s, by rw [rawPack]⟩
  | elist xs =>
    rw [WF] at hwf
    simp only [Bool.and_eq_true, decide_eq_true_eq] at hwf
    obtain ⟨body, hb⟩ := rawPackList_ok_of_WFList xs hwf.2
    exact ⟨_, by rw [rawPack, hb]⟩
  | eslice xs =>
    rw [WF] at hwf
    simp only [Bool.and_eq_true, decide_eq_true_eq] at hwf
    obtain ⟨body, hb⟩ := rawPackList_ok_of_WFList xs hwf.2
    by_cases hz : xs.length = 0
    · exact ⟨_, by rw [rawPack, if_pos hz]⟩
    · exact ⟨_, by rw [rawPack, if_neg hz, if_neg (by omega), hb]⟩
  | emap m =>
    rw [WF] at hwf
    simp only [Bool.and_eq_true, decide_eq_true_eq] at hwf
    obtain ⟨body, hb⟩ := rawPackEntries_ok_of_WFEntries m hwf.2
    exact ⟨_, by rw [rawPack, if_neg (by omega), hb]⟩
  | eother ty =>
    rw [WF] at hwf
    exact absurd hwf (by simp)

theorem rawPackList_ok_of_WFList (xs : List EncVal) (hwf : WFList xs = true) :
    ∃ bs, rawPackList xs = Except.ok bs := by
  cases xs with
  | nil => exact ⟨[], by rw [rawPackList]⟩
  | cons x t =>
    rw [WFList] at hwf
    simp only [Bool.and_eq_true] at hwf
    obtain ⟨bx, hx⟩ := rawPack_ok_of_WF x hwf.1
    obtain ⟨bt, ht⟩ := rawPackList_ok_of_WFList t hwf.2
    exact ⟨bx ++ bt, by rw [rawPackList, hx, ht]⟩

theorem rawPackEntries_ok_of_WFEntries (m : List (Bytes × EncVal))
    (hwf : WFEntries m = true) : ∃ bs, rawPackEntries m = Except.ok bs := by
  cases m with
  | nil => exact ⟨[], by rw [rawPackEntries]⟩
  | cons hd t =>
    obtain ⟨k, v⟩ := hd
    rw [WFEntries] at hwf
    simp only [Bool.and_eq_true, decide_eq_true_eq] at hwf
    obtain ⟨bv, hv⟩ := rawPack_ok_of_WF v hwf.1.2
    obtain ⟨bt, ht⟩ := rawPackEntries_ok_of_WFEntries t hwf.2
    exact ⟨appendBinary k ++ bv ++ bt, by rw [rawPackEntries, hv, ht]⟩

end

mutual

theorem valAgrees_toGo (v : EncVal) (hwf : WF v = true) : ValAgrees v (toGo v) = true := by
  cases v with
  | enull => rw [toGo, ValAgrees]
  | ebool b => rw [toGo]; simp [ValAgrees]
  | eint n =>
    rw [WF] at hwf
    simp only [Bool.and_eq_true, decide_eq_true_eq] at hwf
    rw [toGo]
    by_cases hr : 0 ≤ n ∧ n ≤ 255
    · rw [if_pos hr]
      simp only [ValAgrees, decide_eq_true_eq]
      omega
    · rw [if_neg hr]
      simp only [ValAgrees, decide_eq_true_eq, toInt32]
      split_ifs <;> omega
  | efloat64 bits => rw [toGo]; simp [ValAgrees]
  | estr s => rw [toGo]; simp [ValAgrees]
  | elist xs =>
    rw [WF] at hwf
    simp only [Bool.and_eq_true, decide_eq_true_eq] at hwf
    rw [toGo, ValAgrees]
    exact valAgreesList_toGoList xs hwf.2
  | eslice xs =>
    rw [WF] at hwf
    simp only [Bool.and_eq_true, decide_eq_true_eq] at hwf
    rw [toGo, ValAgrees]
    exact valAgreesList_toGoList xs hwf.2
  | emap m =>
    rw [WF] at hwf
    simp only [Bool.and_eq_true, decide_eq_true_eq] at hwf
    rw [toGo, ValAgrees]
    exact valAgreesEntries_toGoEntries m hwf.2
  | eother ty =>
    rw [WF] at hwf
    exact absurd hwf (by simp)

theorem valAgreesList_toGoList (xs : List EncVal) (hwf : WFList xs = true) :
    ValAgreesList xs (toGoList xs) = true := by
  cases xs with
  | nil => rw [toGoList, ValAgreesList]
  | cons x t =>
    rw [WFList] at hwf
    simp only [Bool.and_eq_true] at hwf
    rw [toGoList, ValAgreesList]
    simp only [Bool.and_eq_true]
    exact ⟨valAgrees_toGo x hwf.1, valAgreesList_toGoList t hwf.2⟩

theorem valAgreesEntries_toGoEntries (m : List (Bytes × EncVal))
    (hwf : WFEntries m = true) : ValAgreesEntries m (toGoEntries m) = true := by
  cases m with
  | nil => rw [toGoEntries, ValAgreesEntries]
  | cons hd t =>
    obtain ⟨k, v⟩ := hd
    rw [WFEntries] at hwf
    simp only [Bool.and_eq_true, decide_eq_true_eq] at hwf
    rw [toGoEntries, ValAgreesEntries]
    simp only [Bool.and_eq_true, beq_self_eq_true, true_and]
    exact ⟨valAgrees_toGo v hwf.1.2, valAgreesEntries_toGoEntries t hwf.2⟩

end

/-- C2: for every wire payload that the value-tree decode path Unpack accepts,
the direct-to-JSON path UnpackToBytes returns exactly the JSON marshalling of
Unpack's value tree (main.go implements UnpackToBytes as Unpack followed by
json.Marshal, so the byte outputs agree for any marshaller and hence parse to
the same JSON). -/
theorem C2_crossDecoder (ext : Ext) (marshal : GoVal → Bytes) (f : Nat) (data : Bytes)
    (v : GoVal) (h : Unpack ext f data = Except.ok v) :
    UnpackToBytes ext marshal f data = Except.ok (marshal v) := by
  rw [UnpackToBytes, h]

/-- Witness for C2 at the payload `[131, 97, 5]` (small integer 5). -/
theorem C2_crossDecoder_witness :
    Unpack extTriv 2 [131, 97, 5] = Except.ok (GoVal.gint 5) ∧
    UnpackToBytes extTriv (fun _ => [42]) 2 [131, 97, 5] = Except.ok [42] :=
  ⟨by simp [Unpack, unpackF, decodeF, decodeSmallInteger, read8, dbind],
   C2_crossDecoder extTriv (fun _ => [42]) 2 [131, 97, 5] (GoVal.gint 5)
     (by simp [Unpack, unpackF, decodeF, decodeSmallInteger, read8, dbind])⟩

/-- C7 counterexample: encoding a value of an unsupported dynamic type does
not report a typed failure — rawPack (and hence Pack) panics, which aborts the
call; the encoder has no typed error channel at all (its only failure
constructor is a panic). -/
theorem C7_counterexample :
    rawPack (EncVal.eother "chan int") =
      Except.error (EErr.panicked "Unsupported etf type: chan int") ∧
    Pack (EncVal.eother "chan int") =
      Except.error (EErr.panicked "Unsupported etf type: chan int") := by
  constructor
  · rw [rawPack]
    rfl
  · rw [Pack, rawPack]
    rfl

/-- C7 amended: every encoder failure path panics (a process-aborting failure
unless recovered) rather than returning a typed error: unsupported dynamic
shapes, a mapping with more than 2^32 - 2 entries, and a reflected slice with
more than 2^32 - 2 elements; no bytes are returned for that call.  A []any
sequence has no length guard at all: its element count is emitted reduced
modulo 2^32. -/
theorem C7_amended :
    (∀ ty, Pack (EncVal.eother ty) =
      Except.error (EErr.panicked ("Unsupported etf type: " ++ ty))) ∧
    (∀ m : List (Bytes × EncVal), 2 ^ 32 - 2 < m.length →
      Pack (EncVal.emap m) =
        Except.error (EErr.panicked "Dictionary has too many properties")) ∧
    (∀ xs : List EncVal, xs.length ≠ 0 → 2 ^ 32 - 2 < xs.length →
      Pack (EncVal.eslice xs) = Except.error (EErr.panicked "List is too large")) ∧
    (∀ (xs : List EncVal) (body : Bytes), rawPackList xs = Except.ok body →
      rawPack (EncVal.elist xs) =
        Except.ok (108 :: u32be (xs.length % 2 ^ 32) ++ body ++ [106])) := by
  refine ⟨fun ty => by rw [Pack, rawPack], fun m hm => ?_, fun xs h0 hb => ?_, fun xs body hb => ?_⟩
  · rw [Pack, rawPack, if_pos (by omega)]
  · rw [Pack, rawPack, if_neg h0, if_pos (by omega)]
  · rw [rawPack, hb]
    rfl

/-- Witness for C7 amended: a concrete unsupported shape, a mapping and a
slice of 2^32 - 1 entries, and a one-element []any. -/
theorem C7_amended_witness :
    Pack (EncVal.eother "chan int") =
      Except.error (EErr.panicked "Unsupported etf type: chan int") ∧
    Pack (EncVal.emap (List.replicate (2 ^ 32 - 1) ([], EncVal.enull))) =
      Except.error (EErr.panicked "Dictionary has too many properties") ∧
    Pack (EncVal.eslice (List.replicate (2 ^ 32 - 1) EncVal.enull)) =
      Except.error (EErr.panicked "List is too large") ∧
    rawPack (EncVal.elist [EncVal.enull]) =
      Except.ok (108 :: u32be (1 % 2 ^ 32) ++ appendNil ++ [106]) := by
  refine ⟨C7_amended.1 "chan int", ?_, ?_, ?_⟩
  · exact C7_amended.2.1 _ (by rw [List.length_replicate]; norm_num)
  · exact C7_amended.2.2.1 _ (by rw [List.length_replicate]; norm_num)
      (by rw [List.length_replicate]; norm_num)
  · have h := C7_amended.2.2.2 [EncVal.enull] appendNil
      (by rw [rawPackList, rawPack, rawPackList]; rfl)
    simpa using h

/-- C8: every primitive cursor read checks `offset + width <= len(data)` first
and, on violation, returns an out-of-bounds error with the decoder state
unchanged — the offset is not advanced on a failed read. -/
theorem C8_readBounds (st : DecSt) :
    (st.data.length < st.offset + 1 →
      read8 st = (Except.error (DErr.err "reading a byte exceeds buffer size"), st)) ∧
    (st.data.length < st.offset + 2 →
      read16 st = (Except.error (DErr.err "reading two bytes exceeds buffer size"), st)) ∧
    (st.data.length < st.offset + 4 →
      read32 st = (Except.error (DErr.err "reading four bytes exceeds buffer size"), st)) ∧
    (st.data.length < st.offset + 8 →
      read64 st = (Except.error (DErr.err "reading eight bytes exceeds buffer size"), st)) ∧
    (∀ n, st.data.length < st.offset + n →
      readString n st =
        (Except.error (DErr.err "reading sequence past the end of the buffer"), st)) := by
  refine ⟨fun h => ?_, fun h => ?_, fun h => ?_, fun h => ?_, fun n h => ?_⟩
  · rw [read8, if_pos (by omega)]
  · rw [read16, if_pos (by omega)]
  · rw [read32, if_pos (by omega)]
  · rw [read64, if_pos (by omega)]
  · rw [readString, if_pos (by omega)]

/-- Witness for C8 at the empty buffer. -/
theorem C8_readBounds_witness :
    read8 ⟨[], 0⟩ = (Except.error (DErr.err "reading a byte exceeds buffer size"), ⟨[], 0⟩) ∧
    readString 3 ⟨[], 0⟩ =
      (Except.error (DErr.err "reading sequence past the end of the buffer"), ⟨[], 0⟩) :=
  ⟨(C8_readBounds ⟨[], 0⟩).1 (by norm_num),
   (C8_readBounds ⟨[], 0⟩).2.2.2.2 3 (by norm_num)⟩

/-- C9 counterexample: the empty []any sequence does not encode as the bare
nil-list tag — Pack emits the full list form (tag 108, count 0, terminator),
while the empty reflected slice does encode as the bare nil tag. -/
theorem C9_counterexample :
    Pack (EncVal.elist []) = Except.ok [131, 108, 0, 0, 0, 0, 106] ∧
    Pack (EncVal.eslice []) = Except.ok [131, 106] ∧
    ([131, 108, 0, 0, 0, 0, 106] : Bytes) ≠ [131, 106] := by
  refine ⟨?_, ?_, by decide⟩
  · rw [Pack, rawPack, rawPackList]
    rfl
  · rw [Pack, rawPack]
    rfl

/-- C9 amended: Pack encodes every non-empty sequence (both the []any path and
the reflected-slice path) as the list tag, a 4-byte element count, the elements
in order, and a terminating nil-list byte.  An empty sequence encodes as just
the nil-list tag only on the reflected-slice path; an empty []any encodes as
the full list form with count zero. -/
theorem C9_amended :
    (∀ (x : EncVal) (xs : List EncVal) (body : Bytes),
      rawPackList (x :: xs) = Except.ok body →
      Pack (EncVal.elist (x :: xs)) =
        Except.ok (131 :: 108 :: u32be ((x :: xs).length % 2 ^ 32) ++ body ++ [106])) ∧
    (∀ (x : EncVal) (xs : List EncVal) (body : Bytes),
      (x :: xs).length ≤ 2 ^ 32 - 2 →
      rawPackList (x :: xs) = Except.ok body →
      Pack (EncVal.eslice (x :: xs)) =
        Except.ok (131 :: 108 :: u32be ((x :: xs).length % 2 ^ 32) ++ body ++ [106])) ∧
    Pack (EncVal.eslice []) = Except.ok [131, 106] ∧
    Pack (EncVal.elist []) = Except.ok [131, 108, 0, 0, 0, 0, 106] := by
  refine ⟨fun x xs body hb => ?_, fun x xs body hlen hb => ?_, ?_, ?_⟩
  · rw [Pack, rawPack, hb]
    rfl
  · rw [Pack, rawPack, if_neg (by simp), if_neg (by simp at hlen ⊢; omega), hb]
    rfl
  · rw [Pack, rawPack]
    rfl
  · rw [Pack, rawPack, rawPackList]
    rfl

/-- Witness for C9 amended at the one-element sequence `[null]`. -/
theorem C9_amended_witness :
    Pack (EncVal.elist [EncVal.enull]) =
      Except.ok (131 :: 108 :: u32be (1 % 2 ^ 32) ++ appendNil ++ [106]) ∧
    Pack (EncVal.eslice [EncVal.enull]) =
      Except.ok (131 :: 108 :: u32be (1 % 2 ^ 32) ++ appendNil ++ [106]) := by
  have hb : rawPackList [EncVal.enull] = Except.ok appendNil := by
    rw [rawPackList, rawPack, rawPackList]
    rfl
  exact ⟨by simpa using C9_amended.1 EncVal.enull [] appendNil hb,
         by simpa using C9_amended.2.1 EncVal.enull [] appendNil (by norm_num) hb⟩

/-- C10: an integer outside 0..255 is encoded as tag 98 followed by the low 32
bits of its two's complement representation (`v mod 2^32`) in big-endian order;
an integer of magnitude beyond 32 bits is silently reduced modulo 2^32 rather
than rejected, and Pack never fails on an integer input. -/
theorem C10_intEncoding :
    (∀ v : Int, -(2 ^ 63) ≤ v → v < 2 ^ 63 → ¬(0 ≤ v ∧ v ≤ 255) →
      Pack (EncVal.eint v) = Except.ok (131 :: 98 :: u32be (v % 2 ^ 32).toNat)) ∧
    (∀ v : Int, ∃ bs, Pack (EncVal.eint v) = Except.ok bs) := by
  constructor
  · intro v _ _ hout
    rw [Pack, rawPack, appendInt, if_neg hout]
    rfl
  · intro v
    exact ⟨_, by rw [Pack, rawPack]⟩

/-- Witness for C10 at `v = 2^32`, whose low 32 bits are zero. -/
theorem C10_intEncoding_witness :
    Pack (EncVal.eint (2 ^ 32)) = Except.ok [131, 98, 0, 0, 0, 0] := by
  have h := C10_intEncoding.1 (2 ^ 32) (by norm_num) (by norm_num) (by norm_num)
  simpa [u32be] using h

/-- C3 counterexample: a big integer of digit count 4 with sign byte 1 and
magnitude 2^31 (digit bytes 0,0,0,128 little-endian) does not decode to a
native 32-bit number — the negation guard `value & (1<<31) == 0` fails and the
decoder falls through to the decimal-string path, returning "-2147483648". -/
theorem C3_counterexample :
    decodeBig 4 ⟨[1, 0, 0, 0, 128], 0⟩ =
      (Except.ok (GoVal.gstr [45, 50, 49, 52, 55, 52, 56, 51, 54, 52, 56]),
        ⟨[1, 0, 0, 0, 128], 5⟩) ∧
    isNative32 (GoVal.gstr [45, 50, 49, 52, 55, 52, 56, 51, 54, 52, 56]) = false := by
  constructor
  · simp [decodeBig, readBigValue, read8, dbind, uint64ToString, decDigits]
  · rfl

/-- C3 amended: with a readable sign byte, a digit count above 8 fails with the
magnitude error; a digit count of at most 4 yields a native unsigned 32-bit
value when the sign byte is 0, and a native negated int32 when the sign byte is
nonzero and bit 31 of the magnitude is clear — otherwise the result is a
decimal string; in particular digit count 1, sign 1, digit 1 decodes to -1. -/
theorem C3_amended :
    (∀ (st : DecSt) (digits sign : Nat) (rest : Bytes),
      st.data.drop st.offset = sign :: rest → 8 < digits →
      decodeBig digits st =
        (Except.error (DErr.err "Unable to decode big ints larger than 8 bytes"),
          ⟨st.data, st.offset + 1⟩)) ∧
    (∀ (data rest ds : Bytes) (off : Nat), data.drop off = 0 :: (ds ++ rest) →
      ds.length ≤ 4 →
      decodeBig ds.length ⟨data, off⟩ =
        (Except.ok (GoVal.guint32 (leVal ds % 2 ^ 32)), ⟨data, off + 1 + ds.length⟩)) ∧
    (∀ (data rest ds : Bytes) (off sign : Nat), data.drop off = sign :: (ds ++ rest) →
      ds.length ≤ 4 → sign ≠ 0 → leVal ds &&& 2 ^ 31 = 0 →
      decodeBig ds.length ⟨data, off⟩ =
        (Except.ok (GoVal.gint32 (-((leVal ds % 2 ^ 32 : Nat) : Int))),
          ⟨data, off + 1 + ds.length⟩)) ∧
    decodeBig 1 ⟨[1, 1], 0⟩ = (Except.ok (GoVal.gint32 (-1)), ⟨[1, 1], 2⟩) := by
  refine ⟨?_, ?_, ?_, ?_⟩
  · intro st digits sign rest h hd
    obtain ⟨d, o⟩ := st
    rw [decodeBig, read8_cons h, dbind_ok, if_pos (by omega)]
  · intro data rest ds off h hle
    rw [decodeBig, read8_cons h, dbind_ok, if_neg (by omega)]
    rw [readBigValue_spec 0 1 (drop_cons h), dbind_ok]
    simp only [Nat.zero_add, Nat.mul_one]
    rw [if_pos ⟨hle, trivial⟩]
  · intro data rest ds off sign h hle hsign hbit
    rw [decodeBig, read8_cons h, dbind_ok, if_neg (by omega)]
    rw [readBigValue_spec 0 1 (drop_cons h), dbind_ok]
    simp only [Nat.zero_add, Nat.mul_one]
    rw [if_neg (by rintro ⟨-, h0⟩; exact hsign h0), if_pos ⟨hle, hsign, hbit⟩]
  · simp [decodeBig, readBigValue, read8, dbind]

/-- Witness for C3 amended: digit count 9 is refused, one unsigned digit byte 5
decodes to uint32 5, and digit count 1 with sign 1 and digit 1 decodes to -1. -/
theorem C3_amended_witness :
    decodeBig 9 ⟨[0, 1, 2, 3, 4, 5, 6, 7, 8, 9], 0⟩ =
      (Except.error (DErr.err "Unable to decode big ints larger than 8 bytes"),
        ⟨[0, 1, 2, 3, 4, 5, 6, 7, 8, 9], 1⟩) ∧
    decodeBig 1 ⟨[0, 5], 0⟩ = (Except.ok (GoVal.guint32 5), ⟨[0, 5], 2⟩) ∧
    decodeBig 1 ⟨[1, 1], 0⟩ = (Except.ok (GoVal.gint32 (-1)), ⟨[1, 1], 2⟩) := by
  refine ⟨?_, ?_, C3_amended.2.2.2⟩
  · exact C3_amended.1 ⟨[0, 1, 2, 3, 4, 5, 6, 7, 8, 9], 0⟩ 9 0 [1, 2, 3, 4, 5, 6, 7, 8, 9]
      rfl (by norm_num)
  · have h := C3_amended.2.1 [0, 5] [] [5] 0 (by rfl) (by norm_num)
    simpa [leVal] using h

/-- C5 counterexample: tag 107 (string-as-list) decodes through the tree
decoder to a []any of small integers, not to a string value, while tag 109
(binary) over the same bytes decodes to a string. -/
theorem C5_counterexample :
    Unpack extTriv 2 [131, 107, 0, 2, 104, 105] =
      Except.ok (GoVal.glist [GoVal.gint 104, GoVal.gint 105]) ∧
    isGoString (GoVal.glist [GoVal.gint 104, GoVal.gint 105]) = false ∧
    Unpack extTriv 2 [131, 109, 0, 0, 0, 2, 104, 105] =
      Except.ok (GoVal.gstr [104, 105]) ∧
    isGoString (GoVal.gstr [104, 105]) = true := by
  refine ⟨?_, rfl, ?_, rfl⟩
  · simp [Unpack, unpackF, decodeF, decodeStringAsList, readSmallInts, read8, read16,
      dbind, beVal]
  · simp [Unpack, unpackF, decodeF, decodeBinaryAsString, readString, read8, read32,
      dbind, beVal]

/-- C5 amended: a tag-107 term decodes to the ordered sequence of its byte
values as Go small integers (a []any, not a string), while a tag-109 term over
the same bytes decodes to a string. -/
theorem C5_amended (ext : Ext) (f : Nat) :
    (∀ (s rest data : Bytes) (off : Nat), s.length < 2 ^ 16 →
      data.drop off = 107 :: (u16be s.length ++ (s ++ rest)) →
      decodeF ext (f + 1) ⟨data, off⟩ =
        (Except.ok (GoVal.glist (s.map GoVal.gint)), ⟨data, off + 1 + 2 + s.length⟩)) ∧
    (∀ (s rest data : Bytes) (off : Nat), s.length < 2 ^ 32 →
      data.drop off = 109 :: (u32be s.length ++ (s ++ rest)) →
      decodeF ext (f + 1) ⟨data, off⟩ =
        (Except.ok (GoVal.gstr s), ⟨data, off + 1 + 4 + s.length⟩)) ∧
    (∀ s : Bytes, isGoString (GoVal.glist (s.map GoVal.gint)) = false) := by
  refine ⟨?_, ?_, fun s => rfl⟩
  · intro s rest data off hs h
    have hlen := length_drop_eq (by simpa using h :
      data.drop off = [107] ++ (u16be s.length ++ (s ++ rest)))
    rw [decodeF, read8_cons h, dbind_ok]
    norm_num
    unfold decodeStringAsList
    rw [read16_append (drop_cons h) (u16be_length _), dbind_ok, beVal_u16 hs]
    rw [if_neg (by simp [u16be] at hlen; simp; omega)]
    rw [readSmallInts_spec (drop_of_append (drop_cons h) (u16be_length _)), dbind_ok]
  · intro s rest data off hs h
    rw [decodeF, read8_cons h, dbind_ok]
    norm_num
    rw [decodeBinaryAsString_spec hs (drop_cons h)]

/-- Witness for C5 amended on the two-byte payload `hi`. -/
theorem C5_amended_witness :
    decodeF extTriv 1 ⟨[107, 0, 2, 104, 105], 0⟩ =
      (Except.ok (GoVal.glist [GoVal.gint 104, GoVal.gint 105]), ⟨[107, 0, 2, 104, 105], 5⟩) ∧
    decodeF extTriv 1 ⟨[109, 0, 0, 0, 2, 104, 105], 0⟩ =
      (Except.ok (GoVal.gstr [104, 105]), ⟨[109, 0, 0, 0, 2, 104, 105], 7⟩) := by
  constructor
  · have h := (C5_amended extTriv 0).1 [104, 105] [] [107, 0, 2, 104, 105] 0
      (by norm_num) (by simp [u16be])
    simpa using h
  · have h := (C5_amended extTriv 0).2.1 [104, 105] [] [109, 0, 0, 0, 2, 104, 105] 0
      (by norm_num) (by simp [u32be])
    simpa using h

/-- C6 counterexample: a compressed envelope whose declared size 3 is smaller
than the true inflated size 4 does not fail with a compression error —
io.ReadFull succeeds on the 3-byte prefix, and the nested unpack then fails
with the cursor's bounds error (the decoder resumes at its stale offset inside
the decompressed buffer). -/
theorem C6_counterexample :
    extC6.inflate [67, 67] = some [131, 97, 5, 0] ∧
    Unpack extC6 3 [131, 80, 0, 0, 0, 3, 67, 67] =
      Except.error (DErr.err "reading a byte exceeds buffer size") ∧
    DErr.err "reading a byte exceeds buffer size" ≠ DErr.err "failed to decompress data" ∧
    DErr.err "reading a byte exceeds buffer size" ≠ DErr.err "failed to create zlib reader" := by
  refine ⟨rfl, ?_, by decide, by decide⟩
  simp [Unpack, unpackF, decodeF, decodeCompressedF, extC6, read8, read32, dbind, beVal]

/-- C6 amended: in decodeCompressed the failures that do occur are returned
decode errors, never panics: a zlib reader that rejects the stream yields the
reader error, and a declared size larger than the true inflated size makes
io.ReadFull fail, yielding the decompression error.  (A smaller declared size
is not an error at this stage: the inflated prefix is passed on, as the C6
counterexample shows.) -/
theorem C6_amended (ext : Ext) (f : Nat) (st st1 : DecSt) (size : Nat) :
    (read32 st = (Except.ok size, st1) →
      ext.inflate (st1.data.drop st1.offset) = none →
      decodeCompressedF ext f st =
        (Except.error (DErr.err "failed to create zlib reader"), st1)) ∧
    (∀ inf : Bytes, read32 st = (Except.ok size, st1) →
      ext.inflate (st1.data.drop st1.offset) = some inf → inf.length < size →
      decodeCompressedF ext f st =
        (Except.error (DErr.err "failed to decompress data"), st1)) := by
  constructor
  · intro h32 hinf
    rw [decodeCompressedF, h32, dbind_ok, hinf]
  · intro inf h32 hinf hlt
    rw [decodeCompressedF, h32, dbind_ok, hinf]
    simp only []
    rw [if_neg (by omega)]

/-- Witness for C6 amended: a rejected stream and a declared size 9 against a
true inflated size of 4. -/
theorem C6_amended_witness :
    decodeCompressedF extTriv 0 ⟨[0, 0, 0, 9], 0⟩ =
      (Except.error (DErr.err "failed to create zlib reader"), ⟨[0, 0, 0, 9], 4⟩) ∧
    decodeCompressedF extC6 0 ⟨[0, 0, 0, 9, 67, 67], 0⟩ =
      (Except.error (DErr.err "failed to decompress data"), ⟨[0, 0, 0, 9, 67, 67], 4⟩) := by
  constructor
  · exact (C6_amended extTriv 0 ⟨[0, 0, 0, 9], 0⟩ ⟨[0, 0, 0, 9], 4⟩ 9).1
      (by simp [read32, beVal]) rfl
  · exact (C6_amended extC6 0 ⟨[0, 0, 0, 9, 67, 67], 0⟩ ⟨[0, 0, 0, 9, 67, 67], 4⟩ 9).2
      [131, 97, 5, 0] (by simp [read32, beVal]) rfl (by norm_num)

theorem Unpack_cons131 (ext : Ext) (f : Nat) (tail : Bytes) :
    Unpack ext f (131 :: tail) = (decodeF ext f ⟨tail, 0⟩).1 := by
  rw [Unpack, unpackF]
  norm_num

/-- C4 counterexample: a map entry whose key term is an integer (tag 98, value
300) is not keyed by its decimal text "300" — keyToString hits the reflect
type-name default and the entry is produced under the key "int32"; and a map
whose key term is the atom `nil` does not fail with a decode error — it panics
in keyToString. -/
theorem C4_counterexample :
    Unpack extTriv 3 [131, 116, 0, 0, 0, 1, 98, 0, 0, 1, 44, 97, 7] =
      Except.ok (GoVal.gmap [([105, 110, 116, 51, 50], GoVal.gint 7)]) ∧
    uint64ToString 300 = [51, 48, 48] ∧
    ([105, 110, 116, 51, 50] : Bytes) ≠ [51, 48, 48] ∧
    Unpack extTriv 3 [131, 116, 0, 0, 0, 1, 115, 3, 110, 105, 108, 97, 7] =
      Except.error (DErr.panicked "reflect: call of reflect.Value.Type on zero Value") := by
  refine ⟨?_, ?_, by decide, ?_⟩
  · simp [Unpack, unpackF, decodeF, decodeMapF, decodeInteger, decodeSmallInteger,
      keyToString, mapInsert, read8, read32, dbind, beVal, toInt32]
  · simp [uint64ToString, decDigits]
  · simp [Unpack, unpackF, decodeF, decodeMapF, decodeSmallAtom, decodeSmallInteger,
      processAtom, keyToString, read8, read32, readString, dbind, beVal]

/-- C4 amended: the tree decoder's map keys are produced by keyToString, which
passes string keys through, renders Go int keys as decimal text and bool keys
as true/false, but sends every other decoded key shape to the reflect
type-name default (int32 keys become "int32", uint32 keys "uint32", list keys
"[]interface .."), producing a map entry instead of a decode error; a nil key
panics.  In particular every wire map whose single key is an integer term (tag
98) decodes to a map with the key "int32", whatever the integer's value. -/
theorem C4_amended (ext : Ext) :
    (∀ s, keyToString ext (GoVal.gstr s) = Except.ok s) ∧
    (∀ n, keyToString ext (GoVal.gint n) = Except.ok (uint64ToString n)) ∧
    (∀ n, keyToString ext (GoVal.gint32 n) = Except.ok [105, 110, 116, 51, 50]) ∧
    (∀ n, keyToString ext (GoVal.guint32 n) = Except.ok [117, 105, 110, 116, 51, 50]) ∧
    (∀ xs, keyToString ext (GoVal.glist xs) =
      Except.ok [91, 93, 105, 110, 116, 101, 114, 102, 97, 99, 101, 32, 123, 125]) ∧
    (keyToString ext GoVal.gnil =
      Except.error (DErr.panicked "reflect: call of reflect.Value.Type on zero Value")) ∧
    (∀ (f n : Nat) (w : EncVal) (bw : Bytes), n < 2 ^ 32 → WF w = true → depth w ≤ f →
      rawPack w = Except.ok bw →
      Unpack ext (f + 2) (131 :: 116 :: 0 :: 0 :: 0 :: 1 :: 98 :: (u32be n ++ bw)) =
        Except.ok (GoVal.gmap [([105, 110, 116, 51, 50], toGo w)])) := by
  refine ⟨fun s => rfl, fun n => rfl, fun n => rfl, fun n => rfl, fun xs => rfl, rfl, ?_⟩
  intro f n w bw hn hwf hfw hbw
  rw [Unpack_cons131]
  have h0 : (116 :: 0 :: 0 :: 0 :: 1 :: 98 :: (u32be n ++ bw)).drop 0 =
      116 :: (0 :: 0 :: 0 :: 1 :: 98 :: (u32be n ++ bw)) := rfl
  rw [decodeF, read8_cons h0, dbind_ok]
  norm_num
  have h1 : (116 :: 0 :: 0 :: 0 :: 1 :: 98 :: (u32be n ++ bw)).drop (0 + 1) =
      u32be 1 ++ (98 :: (u32be n ++ bw)) := by
    norm_num [u32be]
  rw [read32_append h1 (u32be_length _), dbind_ok, beVal_u32 (by norm_num), decodeMapF]
  have h2 : (116 :: 0 :: 0 :: 0 :: 1 :: 98 :: (u32be n ++ bw)).drop (0 + 1 + 4) =
      98 :: (u32be n ++ bw) := rfl
  rw [decodeF, read8_cons h2, dbind_ok]
  norm_num
  rw [decodeInteger_spec hn (drop_cons h2), dbind_ok]
  have h3 : (116 :: 0 :: 0 :: 0 :: 1 :: 98 :: (u32be n ++ bw)).drop (0 + 1 + 4 + 1 + 4) =
      bw ++ [] := by
    have h4 : (u32be n ++ bw).drop 0 = u32be n ++ bw := List.drop_zero _
    have h5 := drop_of_append h4 (u32be_length n)
    have h6 : (116 :: 0 :: 0 :: 0 :: 1 :: 98 :: (u32be n ++ bw)).drop (0 + 1 + 4 + 1 + 4) =
        (u32be n ++ bw).drop 4 := rfl
    rw [h6]
    simpa using h5
  rw [decodeF_rawPack ext w hwf (f + 1) (by omega) _ [] bw _ hbw h3, dbind_ok]
  simp only [keyToString]
  rw [mapInsert, decodeMapF, dbind_ok]

/-- Witness for C4 amended: key value 300 with payload value 7. -/
theorem C4_amended_witness :
    Unpack extTriv 3 (131 :: 116 :: 0 :: 0 :: 0 :: 1 :: 98 :: (u32be 300 ++ [97, 7])) =
      Except.ok (GoVal.gmap [([105, 110, 116, 51, 50], GoVal.gint 7)]) := by
  have h := (C4_amended extTriv).2.2.2.2.2.2 1 300 (EncVal.eint 7) [97, 7]
    (by norm_num) (by norm_num [WF]) (by norm_num [depth])
    (by rw [rawPack, appendInt]; norm_num; rfl)
  simpa [toGo] using h

/-- C1: for every Generic Value built only from supported well-formed variants
(null, booleans, integers of at most 32-bit signed magnitude, 64-bit floats as
bit patterns, strings, sequences and string-keyed mappings of such values,
with collection sizes within the wire format's 32-bit counts and distinct map
keys), Pack succeeds and Unpack of Pack's output reconstructs the value: the
decoded tree is `toGo v`, which agrees with `v` up to the codec's own
bookkeeping (ints above 255 come back as int32, map keys pass through the
codec's stringification unchanged). -/
theorem C1_roundtrip (ext : Ext) (v : EncVal) (hwf : WF v = true) (f : Nat)
    (hf : depth v ≤ f) :
    ∃ bs, Pack v = Except.ok bs ∧ Unpack ext f bs = Except.ok (toGo v) ∧
      ValAgrees v (toGo v) = true := by
  obtain ⟨bs, hbs⟩ := rawPack_ok_of_WF v hwf
  refine ⟨131 :: bs, ?_, ?_, valAgrees_toGo v hwf⟩
  · rw [Pack, hbs]
    rfl
  · rw [Unpack_cons131]
    rw [decodeF_rawPack ext v hwf f hf bs [] bs 0 hbs (by simp)]

/-- Witness for C1 on a five-element heterogeneous sequence. -/
theorem C1_roundtrip_witness :
    WF (EncVal.elist [EncVal.eint 5, EncVal.ebool true, EncVal.enull,
      EncVal.estr [104, 105], EncVal.eint 300]) = true ∧
    depth (EncVal.elist [EncVal.eint 5, EncVal.ebool true, EncVal.enull,
      EncVal.estr [104, 105], EncVal.eint 300]) ≤ 2 ∧
    (∃ bs, Pack (EncVal.elist [EncVal.eint 5, EncVal.ebool true, EncVal.enull,
        EncVal.estr [104, 105], EncVal.eint 300]) = Except.ok bs ∧
      Unpack extTriv 2 bs = Except.ok (toGo (EncVal.elist [EncVal.eint 5, EncVal.ebool true,
        EncVal.enull, EncVal.estr [104, 105], EncVal.eint 300])) ∧
      ValAgrees (EncVal.elist [EncVal.eint 5, EncVal.ebool true, EncVal.enull,
          EncVal.estr [104, 105], EncVal.eint 300])
        (toGo (EncVal.elist [EncVal.eint 5, EncVal.ebool true, EncVal.enull,
          EncVal.estr [104, 105], EncVal.eint 300])) = true) :=
  ⟨by norm_num [WF, WFList], by norm_num [depth, depthList],
   C1_roundtrip extTriv _ (by norm_num [WF, WFList]) 2 (by norm_num [depth, depthList])⟩

end Erlpack
